import Mathlib

/-!
# RunKAISTData: replay of a KAIST multi-sensor log

Verification development for `app/VWO_MSCKF/example/RunKAISTData.cpp`:
the encoder index built by `LoadEncoderData` and the record-by-record
replay loop of `main`.

Modelling conventions.

* `std::string` is a list of characters, a text file is the list of its
  characters, and an input stream is the list of characters not yet read.
* `double` is an arbitrary commutative ring `R` (a field where the code
  divides); its arithmetic is taken to be exact.  `std::stod` is a parameter
  `stod : Str → Option R`, `none` standing for the exception it throws.
* The calls into the visualizer and into the wheel propagator are recorded
  in a trace of events, in call order.
* Reading `line_data_vec[i]` beyond the size of the vector has no defined
  behaviour in C++; the model stops there with `Outcome.undefinedBehaviour`.
-/

namespace RunKAISTData

/-- The type `std::string`. -/
abbrev Str := List Char

/-! ## Streams -/

/-- One call `std::getline(stream, out, delim)` on the unread characters of
a stream.  `none`: nothing could be extracted, not even a delimiter (the
stream is at its end; failbit is set and the call converts to `false`).
`some (out, rest)`: the characters before the first delimiter, and what is
left unread after the delimiter has been discarded. -/
def getline (delim : Char) : Str → Option (Str × Str)
  | [] => none
  | c :: cs =>
    if c = delim then some ([], cs)
    else
      match getline delim cs with
      | none => some ([c], [])
      | some (out, rest) => some (c :: out, rest)

/-- The values produced by `while (std::getline(stream, v, delim)) push(v)`:
every successful extraction, in order, until the first failing call. -/
def getlineAll (delim : Char) : Str → List Str
  | [] => []
  | c :: cs =>
    if c = delim then [] :: getlineAll delim cs
    else
      match getlineAll delim cs with
      | [] => [[c]]
      | out :: outs => (c :: out) :: outs

/-- The lines `while (std::getline(file, line_str))` iterates over. -/
def fileLines (content : Str) : List Str := getlineAll '\n' content

/-- The vector filled by
`while (std::getline(ss, value_str, ',')) line_data_vec.push_back(value_str)`
after `line_data_vec.clear()`. -/
def splitFields (line_str : Str) : List Str := getlineAll ',' line_str

/-! ## The encoder index -/

/-- The type `std::unordered_map<std::string, std::string>`, as an association list
with at most one entry per key. -/
abbrev EncoderMap := List (Str × Str)

/-- The lookup `map.find(key)`; `none` is `map.end()`. -/
def EncoderMap.find (m : EncoderMap) (key : Str) : Option Str := m.lookup key

/-- The call `map.emplace(key, value)`: inserts only when no element with the key
exists; an existing element is left untouched. -/
def EncoderMap.emplace (m : EncoderMap) (key value : Str) : EncoderMap :=
  match m.find key with
  | some _ => m
  | none => (key, value) :: m

/-- The `while` loop of `LoadEncoderData` over the lines of the file: the
returned flag and the map as the loop leaves it. -/
def LoadEncoderData.loop : List Str → EncoderMap → Bool × EncoderMap
  | [], m => (true, m)
  | line_str :: rest, m =>
    match getline ',' line_str with
    | none => (false, m)
    | some (time_str, _) => LoadEncoderData.loop rest (m.emplace time_str line_str)

/-- The function `LoadEncoderData(path, &map)`.  `encoder_file` is the content of the
file at the path, `none` when it cannot be opened. -/
def LoadEncoderData (encoder_file : Option Str) (time_encoder_map : EncoderMap) :
    Bool × EncoderMap :=
  match encoder_file with
  | none => (false, time_encoder_map)
  | some content => LoadEncoderData.loop (fileLines content) time_encoder_map

/-- The timestamp key of a line of the encoder log: its first comma-separated
field, as `LoadEncoderData` extracts it; `none` for a line with no field. -/
def keyOf (line_str : Str) : Option Str := (getline ',' line_str).map Prod.fst

/-- The first line, in file order, whose timestamp key is `key`. -/
def firstWithKey (key : Str) (lines : List Str) : Option Str :=
  lines.find? (fun l => decide (keyOf l = some key))

/-- The last line, in file order, whose timestamp key is `key`. -/
def lastWithKey (key : Str) (lines : List Str) : Option Str :=
  lines.reverse.find? (fun l => decide (keyOf l = some key))

/-! ## The replay loop of `main` -/

/-- How a run of `main` ends. -/
inductive Outcome
  /-- The statement `return EXIT_SUCCESS`, after the last line. -/
  | exitSuccess
  /-- The statement `return EXIT_FAILURE`, after an error has been logged. -/
  | exitFailure
  /-- The call of `std::terminate` on the uncaught exception of `std::stod`
  (`std::invalid_argument` or `std::out_of_range`). -/
  | terminated
  /-- An access `line_data_vec[i]` with `i` not below the size of the vector. -/
  | undefinedBehaviour
  deriving DecidableEq

/-- A run has failed when it ended by `EXIT_FAILURE` or by `std::terminate`. -/
def Outcome.isFailure : Outcome → Bool
  | .exitFailure => true
  | .terminated => true
  | _ => false

/-- The type `Eigen::Matrix3d`. -/
abbrev Mat3 (R : Type) := Matrix (Fin 3) (Fin 3) R

/-- The type `Eigen::Vector3d`. -/
abbrev Vec3 (R : Type) := Fin 3 → R

/-- The calls that leave `main`, as a test harness observes them.  The image
sink and the propagator carry the `time_str` of the record they are called
for. -/
inductive Event (R Img : Type)
  | DrawImage (time_str : Str) (color_img : Img)
  | PropagateUsingEncoder (time_str : Str) (last_left last_right left right : R)
  | DrawWheelPose (G_R_O : Mat3 R) (G_p_O : Vec3 R)
  | DrawCameras (cam_poses : List (Mat3 R × Vec3 R))
  | DrawFeatures (features : List (Vec3 R))

/-- What `main` takes from outside this file. -/
structure Env (R Img : Type) where
  /-- The argument `argv[2]`. -/
  data_folder : Str
  /-- The function `std::stod`; `none` when it throws. -/
  stod : Str → Option R
  /-- The function `cv::imread` on a path; `none` when the returned matrix is empty. -/
  imread : Str → Option Img
  /-- The conversion `cv::cvtColor(raw_image, color_img, cv::COLOR_BayerRG2RGB)`. -/
  cvtColor : Img → Img
  /-- The method `wheel_processor.PropagateUsingEncoder(last_left, last_right, left,
  right, &G_R_O, &G_p_O)`: the pose it leaves in `G_R_O`, `G_p_O`. -/
  PropagateUsingEncoder : R → R → R → R → Mat3 R × Vec3 R → Mat3 R × Vec3 R

/-- The four `static` locals of the encoder branch. -/
structure Statics (R : Type) where
  G_R_O : Mat3 R
  G_p_O : Vec3 R
  last_left_enc_cnt : R
  last_right_enc_cnt : R

/-- The state carried from one line of the master log to the next: the static
locals (`none` until control first passes their declarations) and the calls
made so far. -/
structure State (R Img : Type) where
  statics : Option (Statics R)
  trace : List (Event R Img)

/-- The state in which the replay loop is entered. -/
def State.init {R Img : Type} : State R Img := ⟨none, []⟩

/-- The literal `"stereo"`. -/
def kStereo : Str := "stereo".toList

/-- The literal `"encoder"`. -/
def kEncoder : Str := "encoder".toList

section Projection

variable {R : Type} [CommRing R]

/-- The constant `O_R_C`, rows `0 0 1`, `-1 0 0`, `0 -1 0`. -/
def O_R_C : Mat3 R := !![0, 0, 1; -1, 0, 0; 0, -1, 0]

/-- The constant `O_p_C(2., 0., 5.)`. -/
def O_p_C : Vec3 R := ![2, 0, 5]

/-- The constant `O_pt(2., 0., 2.)`. -/
def O_pt : Vec3 R := ![2, 0, 2]

/-- The rotation `G_R_C = G_R_O * O_R_C`. -/
def G_R_C (G_R_O : Mat3 R) : Mat3 R := G_R_O * O_R_C

/-- The position `G_p_C = G_p_O + G_R_O * O_p_C`. -/
def G_p_C (G_R_O : Mat3 R) (G_p_O : Vec3 R) : Vec3 R := G_p_O + G_R_O.mulVec O_p_C

/-- The landmark `G_pt = G_p_O + G_R_O * O_pt`. -/
def G_pt (G_R_O : Mat3 R) (G_p_O : Vec3 R) : Vec3 R := G_p_O + G_R_O.mulVec O_pt

end Projection

section Replay

variable {R Img : Type} [CommRing R]

/-- The path `data_folder + "/image/stereo_left/" + time_str + ".png"`. -/
def img_file (data_folder time_str : Str) : Str :=
  data_folder ++ "/image/stereo_left/".toList ++ time_str ++ ".png".toList

/-- The body of `if (sensor_type == "stereo")`.  The second component is the
status `main` returns with, `none` when control leaves the block normally.
The gray image is computed and dropped; `usleep` only delays. -/
def stereoBranch (env : Env R Img) (time_str : Str) (s : State R Img) :
    State R Img × Option Outcome :=
  match env.imread (img_file env.data_folder time_str) with
  | none => (s, some .exitFailure)
  | some raw_image =>
    let color_img := env.cvtColor raw_image
    ({ s with trace := s.trace ++ [.DrawImage time_str color_img] }, none)

/-- Lines 113 to 143: the static locals are initialised on the first pass, then
the propagator and the three drawing calls run and the tick counts are stored. -/
def encoderUpdate (env : Env R Img) (time_str : Str) (left_enc_cnt right_enc_cnt : R)
    (s : State R Img) : State R Img :=
  let st : Statics R := s.statics.getD ⟨1, 0, left_enc_cnt, right_enc_cnt⟩
  let pose := env.PropagateUsingEncoder st.last_left_enc_cnt st.last_right_enc_cnt
    left_enc_cnt right_enc_cnt (st.G_R_O, st.G_p_O)
  { statics := some ⟨pose.1, pose.2, left_enc_cnt, right_enc_cnt⟩
    trace := s.trace ++
      [ .PropagateUsingEncoder time_str st.last_left_enc_cnt st.last_right_enc_cnt
          left_enc_cnt right_enc_cnt,
        .DrawWheelPose pose.1 pose.2,
        .DrawCameras [(G_R_C pose.1, G_p_C pose.1 pose.2)],
        .DrawFeatures [G_pt pose.1 pose.2] ] }

/-- The body of `if (sensor_type == "encoder")`. -/
def encoderBranch (env : Env R Img) (time_encoder_map : EncoderMap) (time_str : Str)
    (s : State R Img) : State R Img × Option Outcome :=
  match time_encoder_map.find time_str with
  | none => (s, some .exitFailure)
  | some encoder_str =>
    let line_data_vec := splitFields encoder_str
    match line_data_vec[1]? with
    | none => (s, some .undefinedBehaviour)
    | some field1 =>
      match env.stod field1 with
      | none => (s, some .terminated)
      | some left_enc_cnt =>
        match line_data_vec[2]? with
        | none => (s, some .undefinedBehaviour)
        | some field2 =>
          match env.stod field2 with
          | none => (s, some .terminated)
          | some right_enc_cnt =>
            (encoderUpdate env time_str left_enc_cnt right_enc_cnt s, none)

/-- The body of the `while` loop of `main` for one line of the master log.
The product `std::stod(time_str) * kToSecond` is not used afterwards; only
whether `std::stod` throws matters. -/
def processLine (env : Env R Img) (time_encoder_map : EncoderMap) (s : State R Img)
    (line_str : Str) : State R Img × Option Outcome :=
  let line_data_vec := splitFields line_str
  match line_data_vec[0]? with
  | none => (s, some .undefinedBehaviour)
  | some time_str =>
    match env.stod time_str with
    | none => (s, some .terminated)
    | some _ =>
      match line_data_vec[1]? with
      | none => (s, some .undefinedBehaviour)
      | some sensor_type =>
        match (if sensor_type = kStereo then stereoBranch env time_str s else (s, none)) with
        | (s1, some status) => (s1, some status)
        | (s1, none) =>
          if sensor_type = kEncoder then encoderBranch env time_encoder_map time_str s1
          else (s1, none)

/-- The `while (std::getline(file_data_stamp, line_str))` loop over the lines
of the master log, with `return EXIT_SUCCESS` after the last one. -/
def mainLoop (env : Env R Img) (time_encoder_map : EncoderMap) :
    List Str → State R Img → State R Img × Outcome
  | [], s => (s, .exitSuccess)
  | line_str :: rest, s =>
    match processLine env time_encoder_map s line_str with
    | (s1, some status) => (s1, status)
    | (s1, none) => mainLoop env time_encoder_map rest s1

/-- The function `main` once the argument count has been checked: `encoder_file` and
`stamp_file` are the contents of `sensor_data/encoder.csv` and
`sensor_data/data_stamp.csv`, `none` when the file cannot be opened. -/
def main (env : Env R Img) (encoder_file stamp_file : Option Str) :
    State R Img × Outcome :=
  match LoadEncoderData encoder_file [] with
  | (false, _) => (State.init, .exitFailure)
  | (true, time_encoder_map) =>
    match stamp_file with
    | none => (State.init, .exitFailure)
    | some content => mainLoop env time_encoder_map (fileLines content) State.init

end Replay

/-! ## Observations on a run -/

/-- The two kinds of record that have a handler. -/
inductive SensorKind
  | stereo
  | encoder
  deriving DecidableEq

section Observations

variable {R Img : Type}

/-- The handler invocation an event stands for: the image sink or the
propagator, with the timestamp string of its record.  The drawing calls that
follow the propagator are not handler invocations of their own. -/
def Event.tag : Event R Img → Option (SensorKind × Str)
  | .DrawImage time_str _ => some (.stereo, time_str)
  | .PropagateUsingEncoder time_str _ _ _ _ => some (.encoder, time_str)
  | _ => none

/-- The sequence of handler invocations of a trace. -/
def invocations (trace : List (Event R Img)) : List (SensorKind × Str) :=
  trace.filterMap Event.tag

/-- The arguments `(last_left, last_right, left, right)` of a propagator call. -/
def Event.ticks : Event R Img → Option (R × R × R × R)
  | .PropagateUsingEncoder _ last_left last_right left right =>
    some (last_left, last_right, left, right)
  | _ => none

/-- The argument tuples of the propagator calls of a trace, in call order. -/
def propagatorCalls (trace : List (Event R Img)) : List (R × R × R × R) :=
  trace.filterMap Event.ticks

/-- The record of a line of the master log that has a handler: a line with at
least two fields whose field 1 is `"stereo"` or `"encoder"`, with its field 0. -/
def lineTag (line_str : Str) : Option (SensorKind × Str) :=
  match splitFields line_str with
  | time_str :: sensor_type :: _ =>
    if sensor_type = kStereo then some (.stereo, time_str)
    else if sensor_type = kEncoder then some (.encoder, time_str)
    else none
  | _ => none

/-- The tick pair of a line of the encoder log: its fields 1 and 2, read by
`stod`. -/
def ticksOf (stod : Str → Option R) (encoder_str : Str) : Option (R × R) :=
  match splitFields encoder_str with
  | _ :: field1 :: field2 :: _ =>
    match stod field1, stod field2 with
    | some l, some r => some (l, r)
    | _, _ => none
  | _ => none

/-- The tick pair of a line of the master log: for a line of kind `"encoder"`,
the tick pair of the line the index holds for its timestamp string. -/
def lineTicks (stod : Str → Option R) (time_encoder_map : EncoderMap) (line_str : Str) :
    Option (R × R) :=
  match splitFields line_str with
  | time_str :: sensor_type :: _ =>
    if sensor_type = kEncoder then
      match time_encoder_map.find time_str with
      | some encoder_str => ticksOf stod encoder_str
      | none => none
    else none
  | _ => none

/-- The propagator arguments that threading the tick pairs `(l_0, r_0), (l_1, r_1), ...`
gives: call `k` gets the pair before it as previous counts and its own pair as
current counts; a first call with nothing before it (`prev = none`) gets its
own pair twice. -/
def threadTicks : Option (R × R) → List (R × R) → List (R × R × R × R)
  | _, [] => []
  | prev, cur :: rest =>
    ((prev.getD cur).1, (prev.getD cur).2, cur.1, cur.2) :: threadTicks (some cur) rest

/-- The tick counts the static locals hold, `none` before they are initialised. -/
def State.lastTicks (s : State R Img) : Option (R × R) :=
  s.statics.map (fun st => (st.last_left_enc_cnt, st.last_right_enc_cnt))

end Observations

/-! ## The wheel propagator -/

section Propagator

variable {R : Type} [Field R]

/-- Modelled from the spec: the method `WheelPropagator::PropagateUsingEncoder` of
`WheelProcessor/WheelPropagator.h`, whose source is not part of the sources at
hand.  Section 4.3: the per-wheel travel is the tick delta times the wheel
factor, `ds` is the mean travel and `dψ` the travel difference over the
baseline; the rotation is composed with a rotation of `dψ` about the vertical
axis and the position advances by `ds` along the previous heading.  `cosF`
and `sinF` stand for cosine and sine. -/
def PropagateUsingEncoder (cosF sinF : R → R) (k_left k_right baseline : R)
    (prev_left prev_right cur_left cur_right : R) (pose : Mat3 R × Vec3 R) :
    Mat3 R × Vec3 R :=
  let dθ_left := (cur_left - prev_left) * k_left
  let dθ_right := (cur_right - prev_right) * k_right
  let ds := (dθ_left + dθ_right) / 2
  let dψ := (dθ_right - dθ_left) / baseline
  let delta_R : Mat3 R := !![cosF dψ, -sinF dψ, 0; sinF dψ, cosF dψ, 0; 0, 0, 1]
  (pose.1 * delta_R, pose.2 + pose.1.mulVec ![ds, 0, 0])

end Propagator

/-! ## Rotations and distances -/

section Geometry

variable {R : Type} [CommRing R]

/-- An orthonormal matrix with determinant 1. -/
def IsRotation (M : Mat3 R) : Prop :=
  M.transpose * M = 1 ∧ M * M.transpose = 1 ∧ M.det = 1

/-- The squared Euclidean length of a vector. -/
def normSq (v : Vec3 R) : R := v 0 * v 0 + v 1 * v 1 + v 2 * v 2

end Geometry

/-! ## A concrete environment -/

/-- The value of a nonempty string of decimal digits. -/
def sampleDigits : Str → Option Nat
  | [] => none
  | cs =>
    cs.foldl
      (fun acc c => if c.isDigit then acc.map (fun n => 10 * n + (c.toNat - 48)) else none)
      (some 0)

/-- An environment over the integers: `stod` reads strings of decimal digits and
throws on anything else, every image file exists, and the propagator adds the
tick deltas to the first two coordinates of the position. -/
def sampleEnv : Env ℤ Nat where
  data_folder := "kaist".toList
  stod := fun s => (sampleDigits s).map Int.ofNat
  imread := fun path => some path.length
  cvtColor := fun img => img + 1
  PropagateUsingEncoder := fun last_left last_right left right pose =>
    (pose.1, pose.2 + ![left - last_left, right - last_right, 0])

/-- An encoder index with the keys `7` and `9`. -/
def sampleMap : EncoderMap := [("7".toList, "7,1,2".toList), ("9".toList, "9,4,6".toList)]

/-- A master log of four lines: two encoder records, a stereo record between
them, and a record of another kind. -/
def sampleLog : List Str :=
  ["7,encoder".toList, "8,stereo".toList, "6,gps".toList, "9,encoder".toList]

end RunKAISTData

namespace RunKAISTData

/-! ## Streams: the loop over `std::getline` -/

theorem getline_eq_none (delim : Char) (s : Str) : getline delim s = none ↔ s = [] := by
  cases s with
  | nil => simp [getline]
  | cons c cs =>
    by_cases h : c = delim
    · simp [getline, h]
    · cases hg : getline delim cs <;> simp [getline, h, hg]

/-- The list `getlineAll` returns is what repeated calls of `getline` extract,
up to the first call that fails. -/
theorem getlineAll_unfold (delim : Char) (s : Str) :
    getlineAll delim s =
      match getline delim s with
      | none => []
      | some (out, rest) => out :: getlineAll delim rest := by
  induction s with
  | nil => simp [getline, getlineAll]
  | cons c cs ih =>
    by_cases h : c = delim
    · simp [getline, getlineAll, h]
    · cases hg : getline delim cs with
      | none =>
        rw [hg] at ih
        simp [getline, getlineAll, h, hg, ih]
      | some p =>
        obtain ⟨out, rest⟩ := p
        rw [hg] at ih
        simp [getline, getlineAll, h, hg, ih]

/-! ## The encoder index -/

theorem keyOf_eq_none (line_str : Str) : keyOf line_str = none ↔ line_str = [] := by
  simp [keyOf, getline_eq_none]

theorem find_emplace (m : EncoderMap) (key value k : Str) :
    (m.emplace key value).find k =
      match m.find k with
      | some v => some v
      | none => if k = key then some value else none := by
  unfold EncoderMap.emplace
  cases hk : m.find key with
  | some v0 =>
    cases hk2 : m.find k with
    | some v => simp [hk2]
    | none =>
      have : k ≠ key := by
        intro h
        rw [h, hk] at hk2
        cases hk2
      simp [hk2, this]
  | none =>
    by_cases h : k = key
    · subst h
      have hk2 : List.lookup k m = none := hk
      simp [EncoderMap.find, List.lookup, hk2]
    · have hb : (k == key) = false := by simpa using h
      simp [EncoderMap.find, List.lookup, hb, h]
      cases List.lookup k m <;> rfl

theorem loop_fst_eq_false (lines : List Str) (m : EncoderMap) :
    (LoadEncoderData.loop lines m).1 = false ↔ [] ∈ lines := by
  induction lines generalizing m with
  | nil => simp [LoadEncoderData.loop]
  | cons l rest ih =>
    cases hg : getline ',' l with
    | none =>
      have hl : l = [] := (getline_eq_none _ _).1 hg
      subst hl
      simp [LoadEncoderData.loop, getline]
    | some p =>
      obtain ⟨t, r⟩ := p
      have hl : l ≠ [] := by
        intro h
        rw [h] at hg
        simp [getline] at hg
      have hl2 : ¬ ([] = l) := fun h => hl h.symm
      simp [LoadEncoderData.loop, hg, ih, hl2]

theorem loop_find (lines : List Str) (m m1 : EncoderMap) (k : Str)
    (h : LoadEncoderData.loop lines m = (true, m1)) :
    m1.find k =
      match m.find k with
      | some v => some v
      | none => firstWithKey k lines := by
  induction lines generalizing m with
  | nil =>
    simp [LoadEncoderData.loop] at h
    subst h
    cases m.find k <;> simp [firstWithKey]
  | cons l rest ih =>
    cases hg : getline ',' l with
    | none => simp [LoadEncoderData.loop, hg] at h
    | some p =>
      obtain ⟨t, r⟩ := p
      simp only [LoadEncoderData.loop, hg] at h
      rw [ih _ h, find_emplace]
      cases hm : m.find k with
      | some v => simp
      | none =>
        by_cases hk : k = t
        · subst hk
          simp [firstWithKey, keyOf, hg]
        · have hk2 : ¬ (t = k) := fun h => hk h.symm
          simp [firstWithKey, keyOf, hg, hk, hk2]

/-! ## The replay loop, one line at a time -/

section BranchLemmas

variable {R Img : Type}

theorem stereoBranch_cases (env : Env R Img) (t : Str) (s : State R Img) :
    (stereoBranch env t s = (s, some .exitFailure)) ∨
    (∃ img, stereoBranch env t s =
      ({ s with trace := s.trace ++ [.DrawImage t img] }, none)) := by
  cases hi : env.imread (img_file env.data_folder t) with
  | none => exact Or.inl (by simp only [stereoBranch, hi])
  | some raw => exact Or.inr ⟨env.cvtColor raw, by simp only [stereoBranch, hi]⟩

end BranchLemmas

section ReplayLemmas

variable {R Img : Type} [CommRing R]

theorem kStereo_ne_kEncoder : kStereo ≠ kEncoder := by decide

theorem encoderBranch_cases (env : Env R Img) (map : EncoderMap) (t : Str) (s : State R Img) :
    (∃ e, e ≠ Outcome.exitSuccess ∧ encoderBranch env map t s = (s, some e)) ∨
    (∃ enc f0 f1 f2 more l r, map.find t = some enc ∧
      splitFields enc = f0 :: f1 :: f2 :: more ∧ env.stod f1 = some l ∧ env.stod f2 = some r ∧
      encoderBranch env map t s = (encoderUpdate env t l r s, none)) := by
  cases hm : map.find t with
  | none => exact Or.inl ⟨.exitFailure, by decide, by simp [encoderBranch, hm]⟩
  | some enc =>
    rcases hsp : splitFields enc with _ | ⟨f0, _ | ⟨f1, _ | ⟨f2, more⟩⟩⟩
    · exact Or.inl ⟨.undefinedBehaviour, by decide, by simp [encoderBranch, hm, hsp]⟩
    · exact Or.inl ⟨.undefinedBehaviour, by decide, by simp [encoderBranch, hm, hsp]⟩
    · cases h1 : env.stod f1 with
      | none => exact Or.inl ⟨.terminated, by decide, by simp [encoderBranch, hm, hsp, h1]⟩
      | some l =>
        exact Or.inl ⟨.undefinedBehaviour, by decide, by simp [encoderBranch, hm, hsp, h1]⟩
    · cases h1 : env.stod f1 with
      | none => exact Or.inl ⟨.terminated, by decide, by simp [encoderBranch, hm, hsp, h1]⟩
      | some l =>
        cases h2 : env.stod f2 with
        | none => exact Or.inl ⟨.terminated, by decide, by simp [encoderBranch, hm, hsp, h1, h2]⟩
        | some r =>
          exact Or.inr ⟨enc, f0, f1, f2, more, l, r, rfl, hsp, h1, h2,
            by simp [encoderBranch, hm, hsp, h1, h2]⟩

/-- The body of the loop on a line with at least two fields whose field 0
`std::stod` accepts: the two `if` statements, one after the other. -/
theorem processLine_fields (env : Env R Img) (map : EncoderMap) (s : State R Img)
    (line t k : Str) (more : List Str) (x : R)
    (hsp : splitFields line = t :: k :: more) (hx : env.stod t = some x) :
    processLine env map s line =
      if k = kStereo then
        (match stereoBranch env t s with
         | (s1, some status) => (s1, some status)
         | (s1, none) => (s1, none))
      else if k = kEncoder then encoderBranch env map t s
      else (s, none) := by
  unfold processLine
  simp only [hsp, List.getElem?_cons_zero, List.getElem?_cons_succ, hx]
  by_cases hk : k = kStereo
  · have hne : ¬ (k = kEncoder) := by
      rw [hk]
      exact kStereo_ne_kEncoder
    simp only [hk, if_true]
    rcases stereoBranch_cases env t s with h | ⟨img, h⟩
    · rw [h]
    · rw [h]
      simp [kStereo_ne_kEncoder]
  · simp only [hk, if_false]

/-- The shapes a line of the master log can have, as the loop body sees them. -/
theorem processLine_cases (env : Env R Img) (map : EncoderMap) (s : State R Img) (line : Str) :
    (∃ e, e ≠ Outcome.exitSuccess ∧ processLine env map s line = (s, some e)) ∨
    (∃ t k more x, splitFields line = t :: k :: more ∧ env.stod t = some x ∧
      ((k = kStereo ∧ ∃ img, processLine env map s line =
          ({ s with trace := s.trace ++ [.DrawImage t img] }, none)) ∨
       (k = kEncoder ∧ ∃ enc f0 f1 f2 rest l r, map.find t = some enc ∧
          splitFields enc = f0 :: f1 :: f2 :: rest ∧
          env.stod f1 = some l ∧ env.stod f2 = some r ∧
          processLine env map s line = (encoderUpdate env t l r s, none)) ∨
       (k ≠ kStereo ∧ k ≠ kEncoder ∧ processLine env map s line = (s, none)))) := by
  rcases hsp : splitFields line with _ | ⟨t, _ | ⟨k, more⟩⟩
  · exact Or.inl ⟨.undefinedBehaviour, by decide, by simp [processLine, hsp]⟩
  · cases hx : env.stod t with
    | none => exact Or.inl ⟨.terminated, by decide, by simp [processLine, hsp, hx]⟩
    | some x => exact Or.inl ⟨.undefinedBehaviour, by decide, by simp [processLine, hsp, hx]⟩
  · cases hx : env.stod t with
    | none => exact Or.inl ⟨.terminated, by decide, by simp [processLine, hsp, hx]⟩
    | some x =>
      have hp := processLine_fields env map s line t k more x hsp hx
      by_cases hk : k = kStereo
      · rcases stereoBranch_cases env t s with h | ⟨img, h⟩
        · left
          refine ⟨.exitFailure, by decide, ?_⟩
          rw [hp, if_pos hk, h]
        · right
          refine ⟨t, k, more, x, rfl, hx, Or.inl ⟨hk, img, ?_⟩⟩
          rw [hp, if_pos hk, h]
      · by_cases hk2 : k = kEncoder
        · rcases encoderBranch_cases env map t s with ⟨e, he, h⟩ | ⟨enc, f0, f1, f2, rest, l, r, h⟩
          · left
            refine ⟨e, he, ?_⟩
            rw [hp, if_neg hk, if_pos hk2, h]
          · right
            refine ⟨t, k, more, x, rfl, hx, Or.inr (Or.inl ⟨hk2, enc, f0, f1, f2, rest, l, r,
              h.1, h.2.1, h.2.2.1, h.2.2.2.1, ?_⟩)⟩
            rw [hp, if_neg hk, if_pos hk2, h.2.2.2.2]
        · right
          refine ⟨t, k, more, x, rfl, hx, Or.inr (Or.inr ⟨hk, hk2, ?_⟩)⟩
          rw [hp, if_neg hk, if_neg hk2]

/-- A line on which the loop body returns from `main` leaves the state as it
found it: no call is made for that line. -/
theorem processLine_abort (env : Env R Img) (map : EncoderMap) (s s1 : State R Img)
    (line : Str) (e : Outcome) (h : processLine env map s line = (s1, some e)) :
    s1 = s ∧ e ≠ .exitSuccess := by
  rcases processLine_cases env map s line with ⟨e0, he0, h0⟩ | ⟨t, k, more, x, _, _, hc⟩
  · rw [h0] at h
    simp only [Prod.mk.injEq, Option.some.injEq] at h
    exact ⟨h.1.symm, h.2 ▸ he0⟩
  · rcases hc with ⟨_, img, h0⟩ | ⟨_, enc, f0, f1, f2, rest, l, r, _, _, _, _, h0⟩ | ⟨_, _, h0⟩ <;>
    · rw [h0] at h
      simp at h

theorem mainLoop_cons_ok (env : Env R Img) (map : EncoderMap) (s s1 : State R Img)
    (line : Str) (rest : List Str) (h : processLine env map s line = (s1, none)) :
    mainLoop env map (line :: rest) s = mainLoop env map rest s1 := by
  simp [mainLoop, h]

theorem mainLoop_cons_abort (env : Env R Img) (map : EncoderMap) (s s1 : State R Img)
    (line : Str) (rest : List Str) (e : Outcome)
    (h : processLine env map s line = (s1, some e)) :
    mainLoop env map (line :: rest) s = (s1, e) := by
  simp [mainLoop, h]

/-- A run that reaches `return EXIT_SUCCESS` on the lines `pre` continues, when
more lines follow, from the state it reached. -/
theorem mainLoop_append (env : Env R Img) (map : EncoderMap) (pre post : List Str)
    (s s1 : State R Img) (h : mainLoop env map pre s = (s1, .exitSuccess)) :
    mainLoop env map (pre ++ post) s = mainLoop env map post s1 := by
  induction pre generalizing s with
  | nil =>
    simp only [mainLoop, Prod.mk.injEq, and_true] at h
    subst h
    rfl
  | cons line rest ih =>
    cases hp : processLine env map s line with
    | mk s2 o =>
      cases o with
      | some e =>
        rw [mainLoop_cons_abort env map s s2 line rest e hp] at h
        simp only [Prod.mk.injEq] at h
        exact absurd h.2 (processLine_abort env map s s2 line e hp).2
      | none =>
        rw [mainLoop_cons_ok env map s s2 line rest hp] at h
        rw [List.cons_append, mainLoop_cons_ok env map s s2 line _ hp]
        exact ih s2 h

/-- Every run is a successful run on the lines before the one it stopped at. -/
theorem mainLoop_processed (env : Env R Img) (map : EncoderMap) (lines : List Str)
    (s s1 : State R Img) (out : Outcome) (h : mainLoop env map lines s = (s1, out)) :
    ∃ n, n ≤ lines.length ∧ (out = .exitSuccess → n = lines.length) ∧
      mainLoop env map (lines.take n) s = (s1, .exitSuccess) := by
  induction lines generalizing s with
  | nil =>
    simp only [mainLoop, Prod.mk.injEq] at h
    exact ⟨0, le_refl _, fun _ => rfl, by simp [mainLoop, h.1]⟩
  | cons line rest ih =>
    cases hp : processLine env map s line with
    | mk s2 o =>
      cases o with
      | some e =>
        rw [mainLoop_cons_abort env map s s2 line rest e hp] at h
        simp only [Prod.mk.injEq] at h
        have ha := processLine_abort env map s s2 line e hp
        refine ⟨0, Nat.zero_le _, ?_, ?_⟩
        · intro hs
          exact absurd (h.2 ▸ hs) ha.2
        · simp [mainLoop, ← h.1, ha.1]
      | none =>
        rw [mainLoop_cons_ok env map s s2 line rest hp] at h
        obtain ⟨n, hn, hsucc, hrun⟩ := ih s2 h
        refine ⟨n + 1, by simpa using hn, ?_, ?_⟩
        · intro hs
          simp [hsucc hs]
        · rw [List.take_succ_cons, mainLoop_cons_ok env map s s2 line _ hp]
          exact hrun

end ReplayLemmas

/-! ## Observations along the loop -/

section TickLemmas

variable {R : Type}

theorem threadTicks_toList_append (prev o : Option (R × R)) (ticks : List (R × R)) :
    threadTicks prev (o.toList ++ ticks) =
      threadTicks prev o.toList ++ threadTicks (o.orElse fun _ => prev) ticks := by
  cases o with
  | none => simp [threadTicks]
  | some c => simp [threadTicks]

theorem ticksOf_fields (stod : Str → Option R) (enc f0 f1 f2 : Str) (rest : List Str) (l r : R)
    (hsp : splitFields enc = f0 :: f1 :: f2 :: rest) (h1 : stod f1 = some l)
    (h2 : stod f2 = some r) : ticksOf stod enc = some (l, r) := by
  simp [ticksOf, hsp, h1, h2]

theorem threadTicks_length (prev : Option (R × R)) (ticks : List (R × R)) :
    (threadTicks prev ticks).length = ticks.length := by
  induction ticks generalizing prev with
  | nil => rfl
  | cons c rest ih => simp [threadTicks, ih]

theorem threadTicks_succ (prev : Option (R × R)) (ticks : List (R × R)) (k : Nat)
    (p c : R × R) (hp : ticks[k]? = some p) (hc : ticks[k + 1]? = some c) :
    (threadTicks prev ticks)[k + 1]? = some (p.1, p.2, c.1, c.2) := by
  induction ticks generalizing prev k with
  | nil => simp at hp
  | cons a rest ih =>
    cases k with
    | zero =>
      simp only [List.getElem?_cons_zero, Option.some.injEq] at hp
      subst hp
      cases rest with
      | nil => simp at hc
      | cons b rest2 =>
        simp only [List.getElem?_cons_succ, List.getElem?_cons_zero, Option.some.injEq] at hc
        subst hc
        simp [threadTicks]
    | succ k =>
      simp only [List.getElem?_cons_succ] at hp hc
      simp only [threadTicks, List.getElem?_cons_succ]
      exact ih (some a) k hp hc

end TickLemmas

section ObservationLemmas

variable {R Img : Type} [CommRing R]

theorem lineTag_stereo (line t : Str) (more : List Str)
    (hsp : splitFields line = t :: kStereo :: more) : lineTag line = some (.stereo, t) := by
  simp [lineTag, hsp]

theorem lineTag_encoder (line t : Str) (more : List Str)
    (hsp : splitFields line = t :: kEncoder :: more) : lineTag line = some (.encoder, t) := by
  have h : ¬ (kEncoder = kStereo) := fun h => kStereo_ne_kEncoder h.symm
  simp [lineTag, hsp, h]

theorem lineTag_other (line t k : Str) (more : List Str)
    (hsp : splitFields line = t :: k :: more) (hs : k ≠ kStereo) (he : k ≠ kEncoder) :
    lineTag line = none := by
  simp [lineTag, hsp, hs, he]

theorem invocations_encoderUpdate (env : Env R Img) (t : Str) (l r : R) (s : State R Img) :
    invocations (encoderUpdate env t l r s).trace = invocations s.trace ++ [(.encoder, t)] := by
  simp [invocations, encoderUpdate, Event.tag, List.filterMap_append, List.filterMap_cons]

/-- A line the loop body completes adds to the handler invocations exactly
the record of that line, if it has one. -/
theorem processLine_invocations (env : Env R Img) (map : EncoderMap) (s s1 : State R Img)
    (line : Str) (h : processLine env map s line = (s1, none)) :
    invocations s1.trace = invocations s.trace ++ (lineTag line).toList := by
  rcases processLine_cases env map s line with ⟨e0, _, h0⟩ | ⟨t, k, more, x, hsp, _, hc⟩
  · rw [h0] at h
    simp at h
  · rcases hc with ⟨hk, img, h0⟩ | ⟨hk, enc, f0, f1, f2, rest, l, r, _, _, _, _, h0⟩ | ⟨hs, he, h0⟩
    · rw [h0] at h
      simp only [Prod.mk.injEq, and_true] at h
      subst hk
      rw [lineTag_stereo line t more hsp, ← h]
      simp [invocations, Event.tag, List.filterMap_append, List.filterMap_cons]
    · rw [h0] at h
      simp only [Prod.mk.injEq, and_true] at h
      subst hk
      rw [lineTag_encoder line t more hsp, ← h, invocations_encoderUpdate]
      rfl
    · rw [h0] at h
      simp only [Prod.mk.injEq, and_true] at h
      rw [lineTag_other line t k more hsp hs he, ← h]
      simp

theorem mainLoop_invocations (env : Env R Img) (map : EncoderMap) (lines : List Str)
    (s s1 : State R Img) (h : mainLoop env map lines s = (s1, .exitSuccess)) :
    invocations s1.trace = invocations s.trace ++ lines.filterMap lineTag := by
  induction lines generalizing s with
  | nil =>
    simp only [mainLoop, Prod.mk.injEq, and_true] at h
    simp [h]
  | cons line rest ih =>
    cases hp : processLine env map s line with
    | mk s2 o =>
      cases o with
      | some e =>
        rw [mainLoop_cons_abort env map s s2 line rest e hp] at h
        simp only [Prod.mk.injEq] at h
        exact absurd h.2 (processLine_abort env map s s2 line e hp).2
      | none =>
        rw [mainLoop_cons_ok env map s s2 line rest hp] at h
        rw [ih s2 h, processLine_invocations env map s s2 line hp, List.filterMap_cons]
        cases lineTag line <;> simp

theorem propagatorCalls_encoderUpdate (env : Env R Img) (t : Str) (l r : R) (s : State R Img) :
    propagatorCalls (encoderUpdate env t l r s).trace =
      propagatorCalls s.trace ++ threadTicks s.lastTicks [(l, r)] ∧
    (encoderUpdate env t l r s).lastTicks = some (l, r) := by
  cases hst : s.statics with
  | none =>
    simp [propagatorCalls, encoderUpdate, Event.ticks, List.filterMap_append,
      List.filterMap_cons, threadTicks, State.lastTicks, hst]
  | some st =>
    simp [propagatorCalls, encoderUpdate, Event.ticks, List.filterMap_append,
      List.filterMap_cons, threadTicks, State.lastTicks, hst]

/-- A line the loop body completes adds to the propagator calls the tick pair
of that line, if it has one, threaded after the stored counts, and stores
that pair. -/
theorem processLine_calls (env : Env R Img) (map : EncoderMap) (s s1 : State R Img)
    (line : Str) (h : processLine env map s line = (s1, none)) :
    propagatorCalls s1.trace =
      propagatorCalls s.trace ++ threadTicks s.lastTicks (lineTicks env.stod map line).toList ∧
    s1.lastTicks = (lineTicks env.stod map line).orElse fun _ => s.lastTicks := by
  rcases processLine_cases env map s line with ⟨e0, _, h0⟩ | ⟨t, k, more, x, hsp, _, hc⟩
  · rw [h0] at h
    simp at h
  · rcases hc with ⟨hk, img, h0⟩ | ⟨hk, enc, f0, f1, f2, rest, l, r, hm, hsp2, h1, h2, h0⟩ |
      ⟨hs, he, h0⟩
    · rw [h0] at h
      simp only [Prod.mk.injEq, and_true] at h
      have hne : ¬ (k = kEncoder) := by
        rw [hk]
        exact kStereo_ne_kEncoder
      have hlt : lineTicks env.stod map line = none := by simp [lineTicks, hsp, hne]
      rw [hlt, ← h]
      simp [propagatorCalls, Event.ticks, List.filterMap_append, List.filterMap_cons,
        threadTicks, State.lastTicks]
    · rw [h0] at h
      simp only [Prod.mk.injEq, and_true] at h
      have hlt : lineTicks env.stod map line = some (l, r) := by
        simp [lineTicks, hsp, hk, hm, ticksOf_fields env.stod enc f0 f1 f2 rest l r hsp2 h1 h2]
      rw [hlt, ← h]
      have := propagatorCalls_encoderUpdate env t l r s
      simpa using this
    · rw [h0] at h
      simp only [Prod.mk.injEq, and_true] at h
      have hlt : lineTicks env.stod map line = none := by simp [lineTicks, hsp, he]
      rw [hlt, ← h]
      simp [threadTicks]

theorem mainLoop_calls (env : Env R Img) (map : EncoderMap) (lines : List Str)
    (s s1 : State R Img) (h : mainLoop env map lines s = (s1, .exitSuccess)) :
    propagatorCalls s1.trace =
      propagatorCalls s.trace ++
        threadTicks s.lastTicks (lines.filterMap (lineTicks env.stod map)) := by
  induction lines generalizing s with
  | nil =>
    simp only [mainLoop, Prod.mk.injEq, and_true] at h
    simp [h, threadTicks]
  | cons line rest ih =>
    cases hp : processLine env map s line with
    | mk s2 o =>
      cases o with
      | some e =>
        rw [mainLoop_cons_abort env map s s2 line rest e hp] at h
        simp only [Prod.mk.injEq] at h
        exact absurd h.2 (processLine_abort env map s s2 line e hp).2
      | none =>
        rw [mainLoop_cons_ok env map s s2 line rest hp] at h
        obtain ⟨hc, hl⟩ := processLine_calls env map s s2 line hp
        have hfm : (line :: rest).filterMap (lineTicks env.stod map) =
            (lineTicks env.stod map line).toList ++ rest.filterMap (lineTicks env.stod map) := by
          rw [List.filterMap_cons]
          cases lineTicks env.stod map line <;> simp
        rw [ih s2 h, hc, hl, hfm, threadTicks_toList_append, List.append_assoc]

end ObservationLemmas

/-! ## Claims on the encoder index -/

/-- C1, as stated, fails: on the encoder log with lines `1,2,3` and `1,4,5`
the build succeeds, the last line with key `1` is `1,4,5`, and the lookup of
`1` returns the earlier line `1,2,3`. -/
theorem C1_last_line_does_not_win :
    (LoadEncoderData (some "1,2,3\n1,4,5\n".toList) []).1 = true ∧
    lastWithKey "1".toList (fileLines "1,2,3\n1,4,5\n".toList) = some "1,4,5".toList ∧
    (LoadEncoderData (some "1,2,3\n1,4,5\n".toList) []).2.find "1".toList
      = some "1,2,3".toList ∧
    (LoadEncoderData (some "1,2,3\n1,4,5\n".toList) []).2.find "1".toList
      ≠ lastWithKey "1".toList (fileLines "1,2,3\n1,4,5\n".toList) := by
  decide

/-- C1, amended: index round-trip with first-line-wins.  For every encoder log
on which `LoadEncoderData` succeeds and every timestamp key that is the first
comma-separated field of some line, the lookup of the key in the resulting
map returns the content of the first line in file order bearing that key. -/
theorem C1_lookup_returns_first_line (content : Str) (m : EncoderMap)
    (hload : LoadEncoderData (some content) [] = (true, m))
    (key : Str) (hkey : ∃ l ∈ fileLines content, keyOf l = some key) :
    ∃ l0, firstWithKey key (fileLines content) = some l0 ∧ keyOf l0 = some key ∧
      m.find key = some l0 := by
  have hfind := loop_find (fileLines content) [] m key hload
  have hnil : EncoderMap.find [] key = none := rfl
  rw [hnil] at hfind
  obtain ⟨l, hl, hlk⟩ := hkey
  cases hf : firstWithKey key (fileLines content) with
  | none =>
    have := List.find?_eq_none.1 hf l hl
    simp [hlk] at this
  | some l0 =>
    refine ⟨l0, rfl, ?_, ?_⟩
    · have := List.find?_some hf
      simpa using this
    · rw [hfind, hf]

theorem C1_lookup_returns_first_line_witness :
    ∃ l0, firstWithKey "1".toList (fileLines "1,2,3\n1,4,5\n".toList) = some l0 ∧
      keyOf l0 = some "1".toList ∧
      EncoderMap.find [("1".toList, "1,2,3".toList)] "1".toList = some l0 :=
  C1_lookup_returns_first_line "1,2,3\n1,4,5\n".toList [("1".toList, "1,2,3".toList)]
    (by decide) "1".toList ⟨"1,4,5".toList, by decide, by decide⟩

/-- C8, as stated, fails: the line `,1,2` has nothing before its first comma,
and `LoadEncoderData` returns `true` with the line indexed under the empty
key. -/
theorem C8_empty_key_is_accepted :
    getline ',' ",1,2".toList = some ([], "1,2".toList) ∧
    LoadEncoderData (some ",1,2\n".toList) [] = (true, [([], ",1,2".toList)]) := by
  decide

/-- C8, amended: `LoadEncoderData` on a file that can be opened returns `false`
exactly when the encoder log contains an empty line. -/
theorem C8_build_fails_iff_empty_line (content : Str) (m : EncoderMap) :
    (LoadEncoderData (some content) m).1 = false ↔ [] ∈ fileLines content := by
  simp only [LoadEncoderData]
  exact loop_fst_eq_false _ _

/-! ## Claims on the replay loop -/

section ReplayClaims

variable {R Img : Type} [CommRing R]

/-- C2: fail-fast on a missing correlation.  When the lines `pre` before line
`line` are replayed to the end without an abort, and `line` is of kind
`"encoder"` with a timestamp string that is not a key of the index, the replay
of any log `pre ++ line :: post` ends with a failure status (`EXIT_FAILURE`
whenever `std::stod` accepts the timestamp string), in the state reached
after `pre`: the handler invocations are those of the records on the lines
before `line`, and the result does not depend on the lines `post`. -/
theorem C2_missing_correlation_fails_fast (env : Env R Img) (map : EncoderMap)
    (pre : List Str) (line t : Str) (more : List Str) (s0 s1 : State R Img)
    (hpre : mainLoop env map pre s0 = (s1, .exitSuccess))
    (hline : splitFields line = t :: kEncoder :: more)
    (hmiss : map.find t = none) :
    ∃ status : Outcome, status.isFailure = true ∧
      (env.stod t ≠ none → status = .exitFailure) ∧
      (∀ post, mainLoop env map (pre ++ line :: post) s0 = (s1, status)) ∧
      invocations s1.trace = invocations s0.trace ++ pre.filterMap lineTag := by
  have hinv := mainLoop_invocations env map pre s0 s1 hpre
  cases hx : env.stod t with
  | none =>
    refine ⟨.terminated, rfl, fun h => absurd rfl h, fun post => ?_, hinv⟩
    rw [mainLoop_append env map pre _ s0 s1 hpre]
    apply mainLoop_cons_abort
    simp [processLine, hline, hx]
  | some x =>
    refine ⟨.exitFailure, rfl, fun _ => rfl, fun post => ?_, hinv⟩
    rw [mainLoop_append env map pre _ s0 s1 hpre]
    apply mainLoop_cons_abort
    have hne : ¬ (kEncoder = kStereo) := fun h => kStereo_ne_kEncoder h.symm
    rw [processLine_fields env map s1 line t kEncoder more x hline hx, if_neg hne, if_pos rfl]
    simp [encoderBranch, hmiss]

theorem C2_missing_correlation_fails_fast_witness :
    ∃ status : Outcome, status.isFailure = true ∧
      (sampleEnv.stod "5".toList ≠ none → status = .exitFailure) ∧
      (∀ post, mainLoop sampleEnv sampleMap (sampleLog ++ "5,encoder".toList :: post)
          State.init =
        ((mainLoop sampleEnv sampleMap sampleLog State.init).1, status)) ∧
      invocations (mainLoop sampleEnv sampleMap sampleLog State.init).1.trace =
        invocations (State.init : State ℤ Nat).trace ++ sampleLog.filterMap lineTag :=
  C2_missing_correlation_fails_fast sampleEnv sampleMap sampleLog "5,encoder".toList
    "5".toList [] State.init (mainLoop sampleEnv sampleMap sampleLog State.init).1
    (Prod.ext rfl (by decide)) (by decide) (by decide)

/-- C3, at failing inputs: a line of the master log with no field (an empty
line), or with a single field, is not rejected by any check; the loop body
reads `line_data_vec[0]`, respectively `line_data_vec[1]`, beyond the size
of the vector, and the run has no defined outcome. -/
theorem C3_short_line_is_read_out_of_bounds :
    (∀ (env : Env R Img) (map : EncoderMap) (rest : List Str) (s : State R Img),
      (mainLoop env map ([] :: rest) s).2 = .undefinedBehaviour) ∧
    (main sampleEnv (some "7,1,2\n".toList) (some "5,stereo\n\n7,encoder\n".toList)).2
      = .undefinedBehaviour ∧
    (main sampleEnv (some "7,1,2\n".toList) (some "5,stereo\n7\n".toList)).2
      = .undefinedBehaviour := by
  refine ⟨?_, by decide, by decide⟩
  intro env map rest s
  simp [mainLoop, processLine, splitFields, getlineAll]

/-- C4: records of other kinds are ignored.  On a line of the master log with
at least two fields, whose field 0 `std::stod` accepts and whose field 1 is
neither `"stereo"` nor `"encoder"`, the loop body makes no call, leaves the
static locals (pose and previous tick counts) as they are and does not
return; the replay goes on with the next line, the index unchanged. -/
theorem C4_other_kinds_are_ignored (env : Env R Img) (map : EncoderMap) (s : State R Img)
    (line t k : Str) (more : List Str) (x : R)
    (hsp : splitFields line = t :: k :: more) (hx : env.stod t = some x)
    (hs : k ≠ kStereo) (he : k ≠ kEncoder) :
    processLine env map s line = (s, none) ∧
    ∀ rest, mainLoop env map (line :: rest) s = mainLoop env map rest s := by
  have hp : processLine env map s line = (s, none) := by
    rw [processLine_fields env map s line t k more x hsp hx, if_neg hs, if_neg he]
  exact ⟨hp, fun rest => mainLoop_cons_ok env map s s line rest hp⟩

theorem C4_other_kinds_are_ignored_witness :
    processLine sampleEnv [("7".toList, "7,1,2".toList)] State.init "5,imu".toList
      = (State.init, none) ∧
    ∀ rest, mainLoop sampleEnv [("7".toList, "7,1,2".toList)] ("5,imu".toList :: rest)
        State.init =
      mainLoop sampleEnv [("7".toList, "7,1,2".toList)] rest State.init :=
  C4_other_kinds_are_ignored sampleEnv [("7".toList, "7,1,2".toList)] State.init
    "5,imu".toList "5".toList "imu".toList [] 5 (by decide) (by decide) (by decide) (by decide)

/-- C5: threading of the previous tick counts.  In any run of the loop from
the initial state, with `ticks` the tick pairs of the encoder records among
the `n` lines the run has completed (all lines when it ends with
`EXIT_SUCCESS`), the propagator calls are `ticks` threaded: there is one call
per pair, the first call gets its own pair as previous and as current counts,
and call `k + 1` gets pair `k` as previous and pair `k + 1` as current
counts.  A line whose kind is not `"encoder"` leaves the stored counts as
they are. -/
theorem C5_previous_ticks_are_threaded (env : Env R Img) (map : EncoderMap)
    (lines : List Str) (s1 : State R Img) (out : Outcome)
    (h : mainLoop env map lines State.init = (s1, out)) :
    (∃ n ticks, n ≤ lines.length ∧ (out = .exitSuccess → n = lines.length) ∧
      ticks = (lines.take n).filterMap (lineTicks env.stod map) ∧
      propagatorCalls s1.trace = threadTicks none ticks ∧
      (propagatorCalls s1.trace).length = ticks.length ∧
      (∀ c, ticks[0]? = some c → (propagatorCalls s1.trace)[0]? = some (c.1, c.2, c.1, c.2)) ∧
      (∀ k p c, ticks[k]? = some p → ticks[k + 1]? = some c →
        (propagatorCalls s1.trace)[k + 1]? = some (p.1, p.2, c.1, c.2))) ∧
    (∀ (s : State R Img) (line t k : Str) (more : List Str),
      splitFields line = t :: k :: more → k ≠ kEncoder →
      (processLine env map s line).1.statics = s.statics) := by
  constructor
  · obtain ⟨n, hn, hsucc, hrun⟩ := mainLoop_processed env map lines State.init s1 out h
    have hc := mainLoop_calls env map (lines.take n) State.init s1 hrun
    have hc2 : propagatorCalls s1.trace =
        threadTicks none ((lines.take n).filterMap (lineTicks env.stod map)) := by
      rw [hc]
      simp [State.init, propagatorCalls, State.lastTicks]
    refine ⟨n, _, hn, hsucc, rfl, hc2, ?_, ?_, ?_⟩
    · rw [hc2, threadTicks_length]
    · intro c hc0
      rw [hc2]
      cases hl : (lines.take n).filterMap (lineTicks env.stod map) with
      | nil => simp [hl] at hc0
      | cons a rest =>
        simp only [hl, List.getElem?_cons_zero, Option.some.injEq] at hc0
        subst hc0
        simp [threadTicks]
    · intro k p c hp hcur
      rw [hc2]
      exact threadTicks_succ none _ k p c hp hcur
  · intro s line t k more hsp hk
    rcases processLine_cases env map s line with ⟨e0, _, h0⟩ | ⟨t2, k2, more2, x, hsp2, _, hc⟩
    · rw [h0]
    · rw [hsp] at hsp2
      simp only [List.cons.injEq] at hsp2
      obtain ⟨_, hk2, _⟩ := hsp2
      subst hk2
      rcases hc with ⟨_, img, h0⟩ | ⟨hke, _⟩ | ⟨_, _, h0⟩
      · rw [h0]
      · exact absurd hke hk
      · rw [h0]

theorem C5_previous_ticks_are_threaded_witness :
    (∃ n ticks, n ≤ sampleLog.length ∧ (Outcome.exitSuccess = .exitSuccess → n = sampleLog.length) ∧
      ticks = (sampleLog.take n).filterMap (lineTicks sampleEnv.stod sampleMap) ∧
      propagatorCalls (mainLoop sampleEnv sampleMap sampleLog State.init).1.trace =
        threadTicks none ticks ∧
      (propagatorCalls (mainLoop sampleEnv sampleMap sampleLog State.init).1.trace).length =
        ticks.length ∧
      (∀ c, ticks[0]? = some c →
        (propagatorCalls (mainLoop sampleEnv sampleMap sampleLog State.init).1.trace)[0]? =
          some (c.1, c.2, c.1, c.2)) ∧
      (∀ k p c, ticks[k]? = some p → ticks[k + 1]? = some c →
        (propagatorCalls (mainLoop sampleEnv sampleMap sampleLog State.init).1.trace)[k + 1]? =
          some (p.1, p.2, c.1, c.2))) ∧
    (∀ (s : State ℤ Nat) (line t k : Str) (more : List Str),
      splitFields line = t :: k :: more → k ≠ kEncoder →
      (processLine sampleEnv sampleMap s line).1.statics = s.statics) :=
  C5_previous_ticks_are_threaded sampleEnv sampleMap sampleLog
    (mainLoop sampleEnv sampleMap sampleLog State.init).1 .exitSuccess
    (Prod.ext rfl (by decide))

/-- C7: ordering preservation.  When the replay of a master log ends with
`EXIT_SUCCESS`, the sequence of handler invocations (image sink or propagator,
with the timestamp string) is the sequence of the stereo and encoder lines of
the log in file order; and for any reordering of the lines on which the
replay also ends with `EXIT_SUCCESS`, the invocations are those lines in the
new order, a reordering of the original invocations. -/
theorem C7_ordering_preserved (env : Env R Img) (map : EncoderMap) (lines : List Str)
    (s1 : State R Img) (h : mainLoop env map lines State.init = (s1, .exitSuccess)) :
    invocations s1.trace = lines.filterMap lineTag ∧
    ∀ (lines2 : List Str) (s2 : State R Img), lines2.Perm lines →
      mainLoop env map lines2 State.init = (s2, .exitSuccess) →
      invocations s2.trace = lines2.filterMap lineTag ∧
      (invocations s2.trace).Perm (invocations s1.trace) := by
  have h1 : invocations s1.trace = lines.filterMap lineTag := by
    rw [mainLoop_invocations env map lines State.init s1 h]
    simp [State.init, invocations]
  refine ⟨h1, fun lines2 s2 hperm h2 => ?_⟩
  have h3 : invocations s2.trace = lines2.filterMap lineTag := by
    rw [mainLoop_invocations env map lines2 State.init s2 h2]
    simp [State.init, invocations]
  refine ⟨h3, ?_⟩
  rw [h1, h3]
  exact hperm.filterMap _

theorem C7_ordering_preserved_witness :
    invocations (mainLoop sampleEnv [("7".toList, "7,1,2".toList)]
        ["5,stereo".toList, "6,gps".toList, "7,encoder".toList] State.init).1.trace
      = ["5,stereo".toList, "6,gps".toList, "7,encoder".toList].filterMap lineTag :=
  (C7_ordering_preserved sampleEnv [("7".toList, "7,1,2".toList)]
    ["5,stereo".toList, "6,gps".toList, "7,encoder".toList] _ (Prod.ext rfl (by decide))).1

/-- C9, at failing inputs: an encoder record whose indexed line has fewer than
three fields is not rejected by any check; the loop body reads
`line_data_vec[2]` (or `line_data_vec[1]`) beyond the size of the vector and
the run has no defined outcome. -/
theorem C9_short_encoder_line_is_read_out_of_bounds :
    (main sampleEnv (some "7,1\n".toList) (some "7,encoder\n".toList)).2
      = .undefinedBehaviour ∧
    (main sampleEnv (some "7\n".toList) (some "7,encoder\n".toList)).2
      = .undefinedBehaviour := by
  decide

end ReplayClaims

/-! ## The propagator and the camera projection -/

section PoseLemmas

variable {R : Type} [CommRing R]

theorem O_R_C_transpose_mul : (O_R_C : Mat3 R).transpose * O_R_C = 1 := by
  ext i j
  fin_cases i <;> fin_cases j <;>
    simp [O_R_C, Matrix.mul_apply, Fin.sum_univ_three, Matrix.one_apply, Matrix.transpose_apply,
      Matrix.vecHead, Matrix.vecTail]

theorem O_R_C_mul_transpose : (O_R_C : Mat3 R) * O_R_C.transpose = 1 := by
  ext i j
  fin_cases i <;> fin_cases j <;>
    simp [O_R_C, Matrix.mul_apply, Fin.sum_univ_three, Matrix.one_apply, Matrix.transpose_apply,
      Matrix.vecHead, Matrix.vecTail]

theorem O_R_C_det : (O_R_C : Mat3 R).det = 1 := by
  simp [O_R_C, Matrix.det_fin_three]

theorem isRotation_G_R_C (M : Mat3 R) (h : IsRotation M) : IsRotation (G_R_C M) := by
  obtain ⟨h1, h2, h3⟩ := h
  refine ⟨?_, ?_, ?_⟩
  · calc (G_R_C M).transpose * G_R_C M
        = O_R_C.transpose * (M.transpose * M) * O_R_C := by
          simp only [G_R_C, Matrix.transpose_mul, Matrix.mul_assoc]
      _ = 1 := by rw [h1, Matrix.mul_one, O_R_C_transpose_mul]
  · calc G_R_C M * (G_R_C M).transpose
        = M * (O_R_C * O_R_C.transpose) * M.transpose := by
          simp only [G_R_C, Matrix.transpose_mul, Matrix.mul_assoc]
      _ = 1 := by rw [O_R_C_mul_transpose, Matrix.mul_one, h2]
  · rw [G_R_C, Matrix.det_mul, h3, O_R_C_det, one_mul]

theorem normSq_camera_landmark (M : Mat3 R) (p : Vec3 R) (h : M.transpose * M = 1) :
    normSq (G_p_C M p - G_pt M p) = 9 := by
  have h22 := congrFun (congrFun h 2) 2
  simp only [Matrix.mul_apply, Fin.sum_univ_three, Matrix.transpose_apply, Matrix.one_apply,
    if_true] at h22
  simp only [normSq, G_p_C, G_pt, O_p_C, O_pt, Pi.sub_apply, Pi.add_apply, Matrix.mulVec,
    Matrix.dotProduct, Fin.sum_univ_three, Matrix.cons_val_zero, Matrix.cons_val_one,
    Matrix.head_cons, Matrix.cons_val_two, Matrix.tail_cons]
  linear_combination 9 * h22

end PoseLemmas

section PropagatorLemmas

variable {R : Type} [Field R]

theorem PropagateUsingEncoder_zero_delta (cosF sinF : R → R) (hcos : cosF 0 = 1)
    (hsin : sinF 0 = 0) (k_left k_right baseline l r : R) (pose : Mat3 R × Vec3 R) :
    PropagateUsingEncoder cosF sinF k_left k_right baseline l r l r pose = pose := by
  have hR : (!![1, -0, 0; 0, 1, 0; 0, 0, 1] : Mat3 R) = 1 := by
    ext i j
    fin_cases i <;> fin_cases j <;> simp [Matrix.one_apply, Matrix.vecHead, Matrix.vecTail]
  have hv : (![0, 0, 0] : Vec3 R) = 0 := by
    ext i
    fin_cases i <;> simp
  simp only [PropagateUsingEncoder, sub_self, zero_mul, add_zero, zero_div, hcos, hsin, hR, hv,
    Matrix.mul_one, Matrix.mulVec_zero]

/-- A property of the state that every completed line keeps holds at the end
of every run that starts with it. -/
theorem mainLoop_invariant {Img : Type} (env : Env R Img) (map : EncoderMap)
    (P : State R Img → Prop)
    (hstep : ∀ s s1 line, P s → processLine env map s line = (s1, none) → P s1)
    (lines : List Str) (s s1 : State R Img) (out : Outcome) (hs : P s)
    (h : mainLoop env map lines s = (s1, out)) : P s1 := by
  induction lines generalizing s with
  | nil =>
    simp only [mainLoop, Prod.mk.injEq] at h
    exact h.1 ▸ hs
  | cons line rest ih =>
    cases hp : processLine env map s line with
    | mk s2 o =>
      cases o with
      | some e =>
        rw [mainLoop_cons_abort env map s s2 line rest e hp] at h
        simp only [Prod.mk.injEq] at h
        rw [← h.1, (processLine_abort env map s s2 line e hp).1]
        exact hs
      | none =>
        rw [mainLoop_cons_ok env map s s2 line rest hp] at h
        exact ih s2 (hstep s s2 line hs hp) h

end PropagatorLemmas

/-! ## Claims on the propagator and the camera projection -/

/-- C6: zero-delta invariant.  With cosine and sine taking the values 1 and 0
at 0 and a baseline other than 0, the propagator called with current tick
counts equal to the previous ones returns the pose it was given; so in every
run of the replay loop from the initial state, as long as exactly one
propagator call has been made, the stored pose is the identity rotation and
the zero position. -/
theorem C6_zero_delta_leaves_pose {R : Type} [Field R] (cosF sinF : R → R)
    (hcos : cosF 0 = 1) (hsin : sinF 0 = 0) (k_left k_right baseline : R)
    (hb : baseline ≠ 0) :
    (∀ (pose : Mat3 R × Vec3 R) (l r : R),
      PropagateUsingEncoder cosF sinF k_left k_right baseline l r l r pose = pose) ∧
    (∀ (Img : Type) (env : Env R Img) (map : EncoderMap) (lines : List Str)
      (s1 : State R Img) (out : Outcome),
      env.PropagateUsingEncoder = PropagateUsingEncoder cosF sinF k_left k_right baseline →
      mainLoop env map lines State.init = (s1, out) →
      (propagatorCalls s1.trace).length = 1 →
      ∃ st, s1.statics = some st ∧ st.G_R_O = 1 ∧ st.G_p_O = 0) := by
  have _ := hb
  have hz := PropagateUsingEncoder_zero_delta cosF sinF hcos hsin k_left k_right baseline
  refine ⟨fun pose l r => hz l r pose, ?_⟩
  intro Img env map lines s1 out henv hrun hlen
  have hinv := mainLoop_invariant env map
    (fun s => (s.statics = none ∧ propagatorCalls s.trace = []) ∨
      (∃ st, s.statics = some st ∧ 1 ≤ (propagatorCalls s.trace).length ∧
        ((propagatorCalls s.trace).length = 1 → st.G_R_O = 1 ∧ st.G_p_O = 0)))
    ?_ lines State.init s1 out (Or.inl ⟨rfl, rfl⟩) hrun
  · rcases hinv with ⟨_, h0⟩ | ⟨st, hst, _, himp⟩
    · rw [h0] at hlen
      simp at hlen
    · exact ⟨st, hst, himp hlen⟩
  · intro s s2 line hP hp
    rcases processLine_cases env map s line with ⟨e0, _, h0⟩ | ⟨t, k, more, x, hsp, _, hc⟩
    · rw [h0] at hp
      simp at hp
    · rcases hc with ⟨_, img, h0⟩ | ⟨_, enc, f0, f1, f2, rest, l, r, _, _, _, _, h0⟩ | ⟨_, _, h0⟩
      · rw [h0] at hp
        simp only [Prod.mk.injEq, and_true] at hp
        subst hp
        simpa [propagatorCalls, Event.ticks, List.filterMap_append, List.filterMap_cons] using hP
      · rw [h0] at hp
        simp only [Prod.mk.injEq, and_true] at hp
        subst hp
        right
        have hcalls := (propagatorCalls_encoderUpdate env t l r s).1
        rcases hP with ⟨hnone, hnil⟩ | ⟨st, hst, hge, _⟩
        · refine ⟨_, rfl, ?_, ?_⟩
          · rw [hcalls]
            simp [threadTicks]
          · intro _
            simp [hnone, henv, hz]
        · refine ⟨_, rfl, ?_, ?_⟩
          · rw [hcalls]
            simp [threadTicks]
          · intro hone
            rw [hcalls, List.length_append] at hone
            have hlen1 : (threadTicks s.lastTicks [(l, r)]).length = 1 := by simp [threadTicks]
            omega
      · rw [h0] at hp
        simp only [Prod.mk.injEq, and_true] at hp
        subst hp
        exact hP

theorem C6_zero_delta_leaves_pose_witness :
    (∀ (pose : Mat3 ℝ × Vec3 ℝ) (l r : ℝ),
      PropagateUsingEncoder Real.cos Real.sin (Real.pi * 0.623479 / 4096)
        (Real.pi * 0.622806 / 4096) 1.52439 l r l r pose = pose) ∧
    (∀ (Img : Type) (env : Env ℝ Img) (map : EncoderMap) (lines : List Str)
      (s1 : State ℝ Img) (out : Outcome),
      env.PropagateUsingEncoder = PropagateUsingEncoder Real.cos Real.sin
        (Real.pi * 0.623479 / 4096) (Real.pi * 0.622806 / 4096) 1.52439 →
      mainLoop env map lines State.init = (s1, out) →
      (propagatorCalls s1.trace).length = 1 →
      ∃ st, s1.statics = some st ∧ st.G_R_O = 1 ∧ st.G_p_O = 0) :=
  C6_zero_delta_leaves_pose Real.cos Real.sin Real.cos_zero Real.sin_zero
    (Real.pi * 0.623479 / 4096) (Real.pi * 0.622806 / 4096) 1.52439 (by norm_num)

/-- C10: the camera and landmark projection is a rigid composition.  For every
body pose, `G_R_C = G_R_O * O_R_C`, `G_p_C = G_p_O + G_R_O * (2,0,5)` and
`G_pt = G_p_O + G_R_O * (2,0,2)` with `O_R_C` of rows `0 0 1`, `-1 0 0`,
`0 -1 0`; whenever `G_R_O` is orthonormal with determinant 1, so is `G_R_C`,
and the distance between `G_p_C` and `G_pt` is 3.  In the encoder branch the
camera pose and the landmark handed to the sinks are these values at the
pose the propagator left, and that pose is what the static locals keep. -/
theorem C10_projection_is_rigid (G_R_O : Mat3 ℝ) (G_p_O : Vec3 ℝ) :
    G_R_C G_R_O = G_R_O * !![0, 0, 1; -1, 0, 0; 0, -1, 0] ∧
    G_p_C G_R_O G_p_O = G_p_O + G_R_O.mulVec ![2, 0, 5] ∧
    G_pt G_R_O G_p_O = G_p_O + G_R_O.mulVec ![2, 0, 2] ∧
    (IsRotation G_R_O →
      IsRotation (G_R_C G_R_O) ∧
      Real.sqrt (normSq (G_p_C G_R_O G_p_O - G_pt G_R_O G_p_O)) = 3) ∧
    (∀ (Img : Type) (env : Env ℝ Img) (t : Str) (l r : ℝ) (s : State ℝ Img),
      ∃ (st : Statics ℝ) (a b : ℝ),
        (encoderUpdate env t l r s).statics = some st ∧
        (st.G_R_O, st.G_p_O) =
          env.PropagateUsingEncoder a b l r
            ((s.statics.getD ⟨1, 0, l, r⟩).G_R_O, (s.statics.getD ⟨1, 0, l, r⟩).G_p_O) ∧
        (encoderUpdate env t l r s).trace = s.trace ++
          [ .PropagateUsingEncoder t a b l r,
            .DrawWheelPose st.G_R_O st.G_p_O,
            .DrawCameras [(st.G_R_O * !![0, 0, 1; -1, 0, 0; 0, -1, 0],
              st.G_p_O + st.G_R_O.mulVec ![2, 0, 5])],
            .DrawFeatures [st.G_p_O + st.G_R_O.mulVec ![2, 0, 2]] ]) := by
  refine ⟨rfl, rfl, rfl, ?_, ?_⟩
  · intro h
    refine ⟨isRotation_G_R_C G_R_O h, ?_⟩
    rw [normSq_camera_landmark G_R_O G_p_O h.1]
    rw [show (9 : ℝ) = 3 ^ 2 by norm_num]
    exact Real.sqrt_sq (by norm_num)
  · intro Img env t l r s
    exact ⟨_, _, _, rfl, rfl, rfl⟩

theorem C10_projection_is_rigid_witness :
    IsRotation (1 : Mat3 ℝ) ∧ IsRotation (G_R_C (1 : Mat3 ℝ)) ∧
      Real.sqrt (normSq (G_p_C (1 : Mat3 ℝ) 0 - G_pt (1 : Mat3 ℝ) 0)) = 3 :=
  ⟨by simp [IsRotation],
    (C10_projection_is_rigid 1 0).2.2.2.1 (by simp [IsRotation])⟩

end RunKAISTData
